import Mathlib

/-!
Verification of the `http` package of `learning-http`
(src/5-http-implementation/http/server.go).

The embedding models the byte stream of a connection as a `List Char`
(the server only manipulates bytes; all case/whitespace operations in the
source act on ASCII data, so characters stand in for bytes). Go's
`map[string]string` is modelled as an association list with
overwrite-on-insert (`hset`), matching map-assignment semantics; lookup of
a missing key yields the zero value `""` (`hgetD`), matching Go map reads.
Fallible operations return `Except Unit` (the Go code only tests `err !=
nil`, never inspects the error value). `time.Now()` is modelled by passing
the formatted date string as an explicit parameter. The unbounded
`for` loops of the source are modelled with a fuel parameter; the claims
proved below only concern finitely many iterations.
-/

set_option autoImplicit false

namespace Http

/-! ### Go standard-library string primitives used by server.go -/

/-- The characters `unicode.IsSpace` accepts in the Latin-1 range; this is
what `strings.TrimSpace` trims (header values here are ASCII). -/
def isGoSpace (c : Char) : Bool :=
  c = '\t' || c = '\n' || c = Char.ofNat 11 || c = Char.ofNat 12 ||
  c = '\r' || c = ' ' || c = Char.ofNat 0x85 || c = Char.ofNat 0xA0

/-- `strings.TrimSpace`: strip leading and trailing whitespace. -/
def goTrimSpace (s : String) : String :=
  String.mk (((s.toList.dropWhile isGoSpace).reverse.dropWhile isGoSpace).reverse)

/-- `strings.ToLower` restricted to ASCII (header names/values here are
ASCII; `Char.toLower` lower-cases exactly the ASCII uppercase letters). -/
def goToLower (s : String) : String :=
  String.mk (s.toList.map Char.toLower)

/-- `strings.Split` with a one-character separator: splits around every
occurrence of `sep`; `splitChar sep "" = [""]` like Go's `Split`. -/
def splitChar (sep : Char) : List Char → List (List Char)
  | [] => [[]]
  | c :: rest =>
    let r := splitChar sep rest
    if c = sep then [] :: r
    else
      match r with
      | [] => [[c]]
      | a :: as => (c :: a) :: as

/-- `strings.Split(s, sep)` for a one-character separator. -/
def goSplit (s : String) (sep : Char) : List String :=
  (splitChar sep s.toList).map String.mk

/-- Split a character list at the first occurrence of `sep`:
`none` when `sep` does not occur. -/
def splitFirst (sep : Char) : List Char → Option (List Char × List Char)
  | [] => none
  | c :: rest =>
    if c = sep then some ([], rest)
    else (splitFirst sep rest).map (fun ab => (c :: ab.1, ab.2))

/-- `strings.SplitN(s, sep, 2)` for a one-character separator: the part
before the first `sep` and everything after it, or `[s]` if absent. -/
def goSplitN2 (s : String) (sep : Char) : List String :=
  match splitFirst sep s.toList with
  | none => [s]
  | some ab => [String.mk ab.1, String.mk ab.2]

/-- `strings.TrimSuffix` on character lists. -/
def listTrimSuffix (s suf : List Char) : List Char :=
  if suf.isSuffixOf s then s.take (s.length - suf.length) else s

/-- `strings.TrimSuffix(s, suf)`: remove `suf` when it is a suffix. -/
def goTrimSuffix (s suf : String) : String :=
  String.mk (listTrimSuffix s.toList suf.toList)

/-- `strconv.ParseInt(s, 10, 64)`: optional sign, one or more decimal
digits, result within the signed 64-bit range; `none` models a non-nil
error (syntax or range). -/
def goParseInt64 (s : String) : Option Int :=
  let sd : Int × List Char :=
    match s.toList with
    | '+' :: rest => (1, rest)
    | '-' :: rest => (-1, rest)
    | l => (1, l)
  if sd.2 = [] then none
  else if sd.2.all (fun c => '0' ≤ c && c ≤ '9') then
    let n : Nat := sd.2.foldl (fun a c => a * 10 + (c.toNat - '0'.toNat)) 0
    let v : Int := sd.1 * n
    if -(2 ^ 63) ≤ v ∧ v < 2 ^ 63 then some v else none
  else none

/-! ### Go maps as association lists -/

/-- Lookup in a `map[string]string`. -/
def hget : List (String × String) → String → Option String
  | [], _ => none
  | kv :: rest, k => if kv.1 = k then some kv.2 else hget rest k

/-- Go map read `m[k]`, yielding the zero value `""` when absent. -/
def hgetD (hs : List (String × String)) (k : String) : String :=
  (hget hs k).getD ""

/-- Go map assignment `m[k] = v`: overwrite the existing entry or append. -/
def hset : List (String × String) → String → String → List (String × String)
  | [], k, v => [(k, v)]
  | kv :: rest, k, v =>
    if kv.1 = k then (k, v) :: rest else kv :: hset rest k v

/-! ### Line reader (`readHTTPLine`) -/

/-- Model of `bufio.Reader.ReadString('\n')`: the prefix of the stream up
to and including the first newline, plus the remaining stream; `none` when
the stream has no newline (the read error path). -/
def takeLine : List Char → Option (List Char × List Char)
  | [] => none
  | c :: rest =>
    if c = '\n' then some ([c], rest)
    else (takeLine rest).map (fun lr => (c :: lr.1, lr.2))

/-- `readHTTPLine`: read up to a newline and strip a trailing CRLF. The
model also returns the unconsumed remainder of the stream (the mutated
reader state). -/
def readHTTPLine (buf : List Char) : Except Unit (String × List Char) :=
  match takeLine buf with
  | none => .error ()
  | some lr => .ok (goTrimSuffix (String.mk lr.1) "\r\n", lr.2)

/-! ### Data model -/

def http10 : String := "HTTP/1.0"

def http11 : String := "HTTP/1.1"

/-- `statusTitles`: the fixed, intentionally partial code→title table. -/
def statusTitles (code : Int) : Option String :=
  if code = 200 then some "OK"
  else if code = 201 then some "Created"
  else if code = 202 then some "Accepted"
  else if code = 203 then some "Non-Authoritative Information"
  else if code = 204 then some "No Content"
  else none

/-- `Request`: `bodyLen` is the `N` of the `io.LimitedReader` installed as
`req.Body` (an `int64` in the source). -/
structure Request where
  method : String
  uri : String
  proto : String
  headers : List (String × String)
  bodyLen : Int
  deriving DecidableEq, Repr

/-- `Response`: `buf` is the body buffer filled by `Response.Write`. -/
structure Response where
  status : Int
  headers : List (String × String)
  proto : String
  buf : String
  deriving DecidableEq, Repr

/-- The `for k, v := range res.Headers` serialization loop. Go map
iteration order is unspecified; the model serializes in list order, one
admissible linearization (no claim depends on header order). -/
def renderHeaders : List (String × String) → String
  | [] => ""
  | kv :: rest => kv.1 ++ ": " ++ kv.2 ++ "\r\n" ++ renderHeaders rest

/-- `Response.writeHeadersTo`: fail on an unknown status code (before
anything is written), else inject `Date` and `Content-Length` and render
the status line, the headers and the blank separator line. `now` stands
for the formatted `time.Now().UTC()` string. -/
def writeHeadersTo (res : Response) (now : String) : Except Unit String :=
  match statusTitles res.status with
  | none => .error ()
  | some title =>
    let hs := hset (hset res.headers "Date" now) "Content-Length"
      (toString res.buf.length)
    .ok (res.proto ++ " " ++ toString res.status ++ " " ++ title ++ "\r\n" ++
      renderHeaders hs ++ "\r\n")

/-- `Response.writeTo`: headers first, then the buffered body. -/
def writeTo (res : Response) (now : String) : Except Unit String :=
  match writeHeadersTo res now with
  | .error e => .error e
  | .ok h => .ok (h ++ res.buf)

/-! ### Request parsing -/

/-- `parseRequestLine`: split on the space character and require exactly
three fields. -/
def parseRequestLine (ln : String) : Option (String × String × String) :=
  match goSplit ln ' ' with
  | [m, u, p] => some (m, u, p)
  | _ => none

/-- `parseHeaderLine`: split on the first colon; lower-case the key and
trim the value. Lines without a colon are rejected (`none`). -/
def parseHeaderLine (ln : String) : Option (String × String) :=
  match goSplitN2 ln ':' with
  | [k, v] => some (goToLower k, goTrimSpace v)
  | _ => none

/-- The header-reading `for` loop of `readRequest`, with fuel. Each
successful `readHTTPLine` consumes at least the newline character, so
`buf.length + 1` fuel always suffices (see `readHeadersF_stable`). -/
def readHeadersF :
    Nat → List (String × String) → List Char →
    Except Unit (List (String × String) × List Char)
  | 0, _, _ => .error ()
  | fuel + 1, hs, buf =>
    match readHTTPLine buf with
    | .error e => .error e
    | .ok lnrest =>
      if lnrest.1.length = 0 then .ok (hs, lnrest.2)
      else
        match parseHeaderLine lnrest.1 with
        | some kv => readHeadersF fuel (hset hs kv.1 kv.2) lnrest.2
        | none => readHeadersF fuel hs lnrest.2

/-- The header-reading loop of `readRequest`: read lines until the empty
line, storing each parsable header (non-parsable lines are skipped). -/
def readHeaders (hs : List (String × String)) (buf : List Char) :
    Except Unit (List (String × String) × List Char) :=
  readHeadersF (buf.length + 1) hs buf

/-- The tail of `readRequest` after the request line has been handled:
the header loop, then the Content-Length computation and the
`io.LimitedReader` body installation. -/
def readRequestRest (m u p : String) (buf : List Char) :
    Except Unit (Request × List Char) :=
  match readHeaders [] buf with
  | .error e => .error e
  | .ok hsrest =>
    match hget hsrest.1 "content-length" with
    | none =>
      .ok ({ method := m, uri := u, proto := p, headers := hsrest.1,
             bodyLen := 0 }, hsrest.2)
    | some str =>
      match goParseInt64 str with
      | none => .error ()
      | some n =>
        .ok ({ method := m, uri := u, proto := p, headers := hsrest.1,
               bodyLen := n }, hsrest.2)

/-- `readRequest`. The source swallows a read error on the request line
(`if ln0, err := readHTTPLine(buf); err == nil { ... }` with no else):
in that case `ReadString` has consumed the whole stream searching for a
newline, so the header loop then runs on the drained reader (and fails). -/
def readRequest (buf : List Char) : Except Unit (Request × List Char) :=
  match readHTTPLine buf with
  | .error _ => readRequestRest "" "" "" []
  | .ok lnrest =>
    match parseRequestLine lnrest.1 with
    | none => .error ()
    | some mup => readRequestRest mup.1 mup.2.1 mup.2.2 lnrest.2

/-! ### The body reader (`io.LimitedReader`) -/

/-- `io.LimitedReader`: reads from the shared connection stream but
returns EOF after `n` bytes. -/
structure LimitedReader where
  n : Int
  stream : List Char
  deriving DecidableEq, Repr

/-- `req.Body = &io.LimitedReader{R: buf, N: cl}` in `readRequest`. -/
def requestBody (req : Request) (rest : List Char) : LimitedReader :=
  { n := req.bodyLen, stream := rest }

/-- One `Read` call with a buffer of capacity `cap`: if the allowance is
exhausted return `(0, io.EOF)`; otherwise shrink the buffer to the
allowance, read what the underlying buffered reader can deliver (all
buffered bytes up to capacity; an empty stream is EOF) and decrement the
allowance by the byte count actually read. -/
def lrRead (lr : LimitedReader) (cap : Nat) : List Char × LimitedReader :=
  if lr.n ≤ 0 then ([], lr)
  else
    let cap2 := if (cap : Int) > lr.n then lr.n.toNat else cap
    let got := lr.stream.take cap2
    (got, { n := lr.n - got.length, stream := lr.stream.drop cap2 })

/-- Repeatedly `Read` with capacity `cap` until a read returns no bytes
(EOF), concatenating everything obtained. -/
def lrDrain : Nat → LimitedReader → Nat → List Char × LimitedReader
  | 0, lr, _ => ([], lr)
  | fuel + 1, lr, cap =>
    let r := lrRead lr cap
    if r.1 = [] then ([], r.2)
    else
      let r2 := lrDrain fuel r.2 cap
      (r.1 ++ r2.1, r2.2)

/-! ### Connection handling (`parseConnection`, `serve`) -/

/-- `Request.parseConnection`: (keepAlive, echoConnectionHeader). -/
def parseConnection (req : Request) : Bool × Bool :=
  let conn := goToLower (hgetD req.headers "connection")
  if req.proto = http10 then
    if conn = "keep-alive" then (true, true) else (false, false)
  else if req.proto = http11 then
    if conn = "close" then (false, true) else (false, false)
  else (false, false)

/-- The fixed 400 response of `serve`. -/
def badRequestBytes : String :=
  "HTTP/1.1 400 Bad Request\r\nConnection: close\r\n\r\n"

/-- The fresh `Response` built by `serve` for a parsed request, after the
Connection-echo step, paired with the keep-alive decision. -/
def initialResponse (req : Request) : Response × Bool :=
  let res : Response :=
    { status := 200, headers := [], proto := req.proto, buf := "" }
  let ke := parseConnection req
  (if ke.2 then
    { res with
      headers := hset res.headers "Connection" (hgetD req.headers "connection") }
   else res, ke.1)

/-- `httpConn.serve`, returning everything written to the connection.
The handler is a pure function from the request and the prepared response
to the final response. On keep-alive the loop continues after the
request's body bytes; this models a handler honoring the documented
obligation to drain the body (the claims below only concern single
iterations, which do not depend on this). `fuel` bounds the number of
loop iterations considered. -/
def serve (handler : Request → Response → Response) (now : String) :
    Nat → List Char → String
  | 0, _ => ""
  | fuel + 1, buf =>
    match readRequest buf with
    | .error _ => badRequestBytes
    | .ok reqrest =>
      let req := reqrest.1
      let ir := initialResponse req
      let res := handler req ir.1
      match writeTo res now with
      | .error _ => ""
      | .ok out =>
        if ir.2 then
          out ++ serve handler now fuel (reqrest.2.drop req.bodyLen.toNat)
        else out

/-! ### Helper lemmas -/

theorem hget_hset_self (hs : List (String × String)) (k v : String) :
    hget (hset hs k v) k = some v := by
  induction hs with
  | nil => simp [hset, hget]
  | cons kv rest ih =>
    by_cases hk : kv.1 = k <;> simp [hset, hget, hk, ih]

theorem hget_hset_ne (hs : List (String × String)) (k v q : String)
    (h : q ≠ k) : hget (hset hs k v) q = hget hs q := by
  have h2 : k ≠ q := fun hh => h hh.symm
  induction hs with
  | nil => simp [hset, hget, h2]
  | cons kv rest ih =>
    by_cases hk : kv.1 = k
    · have hq : kv.1 ≠ q := hk ▸ h2
      simp [hset, hget, hk, hq, h2]
    · by_cases hq : kv.1 = q <;> simp [hset, hget, hk, hq, ih, h]

theorem takeLine_some (buf : List Char) :
    ∀ l r, takeLine buf = some (l, r) → buf = l ++ r ∧ l ≠ [] := by
  induction buf with
  | nil => intro l r h; simp [takeLine] at h
  | cons c rest ih =>
    intro l r h
    by_cases hc : c = '\n'
    · simp [takeLine, hc] at h
      obtain ⟨h1, h2⟩ := h
      subst h1; subst h2; subst hc
      exact ⟨rfl, by simp⟩
    · simp only [takeLine, if_neg hc, Option.map_eq_some'] at h
      obtain ⟨lr, hlr, hf⟩ := h
      obtain ⟨h1, h2⟩ := Prod.mk.injEq .. ▸ hf
      obtain ⟨hb, hne⟩ := ih lr.1 lr.2 (by rw [hlr])
      subst h2
      refine ⟨?_, by simp [← h1]⟩
      rw [← h1]
      simp [hb]

theorem readHTTPLine_shrinks (buf : List Char) (lnrest : String × List Char)
    (h : readHTTPLine buf = .ok lnrest) : lnrest.2.length < buf.length := by
  unfold readHTTPLine at h
  cases hl : takeLine buf with
  | none => rw [hl] at h; exact absurd h (by simp)
  | some lr =>
    rw [hl] at h
    have hlr := takeLine_some buf lr.1 lr.2 (by rw [hl])
    obtain ⟨hb, hne⟩ := hlr
    have h2 : lnrest.2 = lr.2 := by
      cases h; rfl
    rw [h2, hb]
    have : 0 < lr.1.length := List.length_pos.mpr hne
    simp only [List.length_append]
    omega

theorem readHeadersF_stable (f1 : Nat) :
    ∀ (f2 : Nat) (hs : List (String × String)) (buf : List Char),
      buf.length < f1 → buf.length < f2 →
      readHeadersF f1 hs buf = readHeadersF f2 hs buf := by
  induction f1 with
  | zero => intro f2 hs buf h1 h2; omega
  | succ f1 ih =>
    intro f2 hs buf h1 h2
    cases f2 with
    | zero => omega
    | succ f2 =>
      simp only [readHeadersF]
      cases hln : readHTTPLine buf with
      | error e => rfl
      | ok lnrest =>
        have hlt : lnrest.2.length < buf.length :=
          readHTTPLine_shrinks buf lnrest hln
        by_cases hz : lnrest.1.length = 0
        · simp [hz]
        · simp only [hz, if_neg, if_false]
          cases parseHeaderLine lnrest.1 with
          | some kv => exact ih f2 _ _ (by omega) (by omega)
          | none => exact ih f2 _ _ (by omega) (by omega)

theorem takeLine_append (pre : List Char) :
    ∀ rest, '\n' ∉ pre →
      takeLine (pre ++ '\n' :: rest) = some (pre ++ ['\n'], rest) := by
  induction pre with
  | nil => intro rest _; simp [takeLine]
  | cons c pre ih =>
    intro rest h
    simp only [List.mem_cons, not_or] at h
    have hc : ¬ (c = '\n') := fun hh => h.1 hh.symm
    simp [takeLine, hc, ih rest h.2]

theorem listTrimSuffix_crlf (l : List Char) :
    listTrimSuffix (l ++ ['\r', '\n']) ['\r', '\n'] = l := by
  unfold listTrimSuffix
  rw [if_pos]
  · have h2 : (l ++ ['\r', '\n']).length - (['\r', '\n'] : List Char).length
        = l.length := by simp
    rw [h2, List.take_left]
  · exact List.isSuffixOf_iff_suffix.mpr ⟨l, rfl⟩

theorem listTrimSuffix_lf_only (pre : List Char)
    (hcr : pre.getLast? ≠ some '\r') :
    listTrimSuffix (pre ++ ['\n']) ['\r', '\n'] = pre ++ ['\n'] := by
  unfold listTrimSuffix
  rw [if_neg]
  intro hsuf
  obtain ⟨t, ht⟩ := List.isSuffixOf_iff_suffix.mp hsuf
  have ht2 : (t ++ ['\r']) ++ ['\n'] = pre ++ ['\n'] := by
    rw [List.append_assoc]; exact ht
  have hpre : pre = t ++ ['\r'] := (List.append_cancel_right ht2).symm
  rw [hpre, List.getLast?_concat] at hcr
  exact hcr rfl

/-! ### Concrete sample requests used by witnesses -/

/-- A parsed `GET / HTTP/1.1` request with the given headers. -/
def sampleReq11 (hs : List (String × String)) : Request :=
  { method := "GET", uri := "/", proto := "HTTP/1.1", headers := hs,
    bodyLen := 0 }

/-- A parsed `GET / HTTP/1.0` request with the given headers. -/
def sampleReq10 (hs : List (String × String)) : Request :=
  { method := "GET", uri := "/", proto := "HTTP/1.0", headers := hs,
    bodyLen := 0 }

/-! ### Claim theorems -/

/-- Claim C1 (code evaluation at the failing input): for an HTTP/1.1
request, `parseConnection` falls through to `return false, false` when the
connection header is absent or different from "close", so the connection
is NOT kept alive by default; the "close" branch returns keepAlive=false
with the header echoed as the claim states. The keep-alive default the
claim asserts for HTTP/1.1 does not hold on this code. -/
theorem parseConnection_http11_closes_by_default :
    parseConnection (sampleReq11 []) = (false, false) ∧
    parseConnection (sampleReq11 [("connection", "keep-alive")])
      = (false, false) ∧
    parseConnection (sampleReq11 [("connection", "close")])
      = (false, true) := by
  refine ⟨rfl, rfl, rfl⟩

/-- Claim C2: for an HTTP/1.0 request, `parseConnection` keeps the
connection alive exactly when the connection header equals "keep-alive"
case-insensitively, in which case `serve` echoes the header value into the
response's `Connection` header; otherwise the connection is closed and no
`Connection` header is echoed. -/
theorem parseConnection_http10_spec (req : Request) (h : req.proto = http10) :
    (goToLower (hgetD req.headers "connection") = "keep-alive" →
        parseConnection req = (true, true) ∧
        hget (initialResponse req).1.headers "Connection"
          = some (hgetD req.headers "connection")) ∧
    (goToLower (hgetD req.headers "connection") ≠ "keep-alive" →
        parseConnection req = (false, false) ∧
        hget (initialResponse req).1.headers "Connection" = none) := by
  constructor
  · intro hc
    have hp : parseConnection req = (true, true) := by
      simp [parseConnection, h, hc]
    exact ⟨hp, by simp [initialResponse, hp, hget, hset]⟩
  · intro hc
    have hp : parseConnection req = (false, false) := by
      simp [parseConnection, h, hc]
    exact ⟨hp, by simp [initialResponse, hp, hget]⟩

/-- Witness for C2 at concrete requests: "Keep-Alive" (mixed case) keeps
the connection open and is echoed verbatim; no header closes it with no
echo. -/
theorem parseConnection_http10_spec_witness :
    parseConnection (sampleReq10 [("connection", "Keep-Alive")])
      = (true, true) ∧
    hget (initialResponse
        (sampleReq10 [("connection", "Keep-Alive")])).1.headers
      "Connection" = some "Keep-Alive" ∧
    parseConnection (sampleReq10 []) = (false, false) ∧
    hget (initialResponse (sampleReq10 [])).1.headers "Connection"
      = none := by
  have h1 := (parseConnection_http10_spec
    (sampleReq10 [("connection", "Keep-Alive")]) rfl).1 (by decide)
  have h2 := (parseConnection_http10_spec (sampleReq10 []) rfl).2 (by decide)
  exact ⟨h1.1, h1.2, h2.1, h2.2⟩

/-- Claim C3: whenever `readRequest` fails, for any cause, `serve` writes
exactly the fixed literal 400 response and terminates (no further
iteration, and the deferred close releases the connection). -/
theorem serve_bad_request (handler : Request → Response → Response)
    (now : String) (fuel : Nat) (buf : List Char)
    (h : readRequest buf = .error ()) :
    serve handler now (fuel + 1) buf = badRequestBytes ∧
    badRequestBytes
      = "HTTP/1.1 400 Bad Request\r\nConnection: close\r\n\r\n" := by
  exact ⟨by simp [serve, h], rfl⟩

/-- Witness for C3: a request that declares HTTP/1.0 but has an
unparsable Content-Length still gets the HTTP/1.1 400 literal. -/
theorem serve_bad_request_witness :
    serve (fun _ res => res) "D" 1
        ("GET / HTTP/1.0\r\nContent-Length: five\r\n\r\n".toList)
      = badRequestBytes :=
  (serve_bad_request (fun _ res => res) "D" 0
    ("GET / HTTP/1.0\r\nContent-Length: five\r\n\r\n".toList) (by rfl)).1

/-- Claim C5: when the handler's response status has no entry in
`statusTitles`, serialization fails before producing any bytes
(`writeHeadersTo` errors ahead of any write) and the connection loop
exits, returning normally rather than crashing. -/
theorem serve_unknown_status (handler : Request → Response → Response)
    (now : String) (fuel : Nat) (buf : List Char) (req : Request)
    (rest : List Char) (hreq : readRequest buf = .ok (req, rest))
    (hstat : statusTitles (handler req (initialResponse req).1).status
      = none) :
    writeHeadersTo (handler req (initialResponse req).1) now = .error () ∧
    writeTo (handler req (initialResponse req).1) now = .error () ∧
    serve handler now (fuel + 1) buf = "" := by
  have h1 : writeHeadersTo (handler req (initialResponse req).1) now
      = .error () := by
    simp [writeHeadersTo, hstat]
  have h2 : writeTo (handler req (initialResponse req).1) now
      = .error () := by
    simp [writeTo, h1]
  exact ⟨h1, h2, by simp [serve, hreq, h2]⟩

/-- Witness for C5: a handler answering 418 (no title in the table). -/
theorem serve_unknown_status_witness :
    serve (fun _ res => { res with status := 418 }) "D" 1
        ("GET / HTTP/1.1\r\n\r\n".toList) = "" ∧
    writeTo ((fun (_ : Request) (res : Response) =>
        { res with status := 418 })
      (sampleReq11 []) (initialResponse (sampleReq11 [])).1) "D"
      = .error () := by
  have h := serve_unknown_status
    (fun _ res => { res with status := 418 }) "D" 0
    ("GET / HTTP/1.1\r\n\r\n".toList) (sampleReq11 []) [] (by rfl) (by rfl)
  exact ⟨h.2.2, h.2.1⟩

/-- Claim C9: a request line splitting on the space character into
exactly three fields parses into those fields verbatim; any other field
count makes `parseRequestLine` fail and `readRequest` reject the whole
request. -/
theorem parseRequestLine_spec (ln : String) :
    (∀ m u p, goSplit ln ' ' = [m, u, p] →
        parseRequestLine ln = some (m, u, p)) ∧
    ((goSplit ln ' ').length ≠ 3 →
        parseRequestLine ln = none ∧
        ∀ buf rest, readHTTPLine buf = .ok (ln, rest) →
          readRequest buf = .error ()) := by
  constructor
  · intro m u p h
    simp [parseRequestLine, h]
  · intro h
    have hnone : parseRequestLine ln = none := by
      rcases hs : goSplit ln ' ' with _ | ⟨a, _ | ⟨b, _ | ⟨c, _ | d⟩⟩⟩ <;>
        simp_all [parseRequestLine]
    refine ⟨hnone, ?_⟩
    intro buf rest hr
    simp [readRequest, hr, hnone]

/-- Witness for C9: a well-formed request line parses verbatim; a line
with a doubled space yields four fields and aborts the whole parse. -/
theorem parseRequestLine_spec_witness :
    parseRequestLine "GET /x HTTP/1.1" = some ("GET", "/x", "HTTP/1.1") ∧
    parseRequestLine "GET  /x HTTP/1.1" = none ∧
    readRequest ("GET  /x HTTP/1.1\r\n\r\n".toList) = .error () := by
  refine ⟨(parseRequestLine_spec "GET /x HTTP/1.1").1 "GET" "/x" "HTTP/1.1"
      (by rfl), ?_, ?_⟩
  · exact ((parseRequestLine_spec "GET  /x HTTP/1.1").2 (by decide)).1
  · exact ((parseRequestLine_spec "GET  /x HTTP/1.1").2 (by decide)).2
      ("GET  /x HTTP/1.1\r\n\r\n".toList) ("\r\n".toList) (by rfl)

/-- Claim C7: whenever serialization proceeds (the status code has a
title), the serialized response carries headers into which `Date` (the
current formatted time) and `Content-Length` (the exact buffered body
byte count) have been injected, overwriting any handler-set entry of the
same name, and the buffered body bytes follow the blank separator line
verbatim. -/
theorem writeTo_injects_headers (res : Response) (now title : String)
    (h : statusTitles res.status = some title) :
    writeTo res now =
      .ok ((res.proto ++ " " ++ toString res.status ++ " " ++ title ++
          "\r\n" ++
          renderHeaders (hset (hset res.headers "Date" now) "Content-Length"
            (toString res.buf.length)) ++ "\r\n") ++ res.buf) ∧
    hget (hset (hset res.headers "Date" now) "Content-Length"
        (toString res.buf.length)) "Content-Length"
      = some (toString res.buf.length) ∧
    hget (hset (hset res.headers "Date" now) "Content-Length"
        (toString res.buf.length)) "Date" = some now := by
  refine ⟨by simp [writeTo, writeHeadersTo, h], hget_hset_self _ _ _, ?_⟩
  rw [hget_hset_ne _ _ _ _ (by decide)]
  exact hget_hset_self _ _ _

/-- Witness for C7: a handler that wrote 5 body bytes and preset a bogus
Content-Length of 999 gets it overwritten with 5, a Date header appears,
and the 5 body bytes follow the blank line. -/
theorem writeTo_injects_headers_witness :
    writeTo { status := 200,
              headers := [("Content-Length", "999"), ("X", "y")],
              proto := "HTTP/1.1", buf := "hello" } "NOW"
      = .ok ("HTTP/1.1 200 OK\r\nContent-Length: 5\r\nX: y\r\nDate: NOW\r\n\r\nhello") ∧
    hget (hset (hset [("Content-Length", "999"), ("X", "y")] "Date" "NOW")
        "Content-Length" "5") "Content-Length" = some "5" ∧
    hget (hset (hset [("Content-Length", "999"), ("X", "y")] "Date" "NOW")
        "Content-Length" "5") "Date" = some "NOW" := by
  have h := writeTo_injects_headers
    { status := 200, headers := [("Content-Length", "999"), ("X", "y")],
      proto := "HTTP/1.1", buf := "hello" } "NOW" "OK" rfl
  exact ⟨h.1, h.2.1, h.2.2⟩

/-- Claim C8: after the header section, a missing lower-cased
"content-length" header gives body length 0; a present but unparsable one
fails the whole parse. -/
theorem contentLength_rule (m u p : String) (buf : List Char)
    (hs : List (String × String)) (rest : List Char)
    (hh : readHeaders [] buf = .ok (hs, rest)) :
    (hget hs "content-length" = none →
        readRequestRest m u p buf =
          .ok ({ method := m, uri := u, proto := p, headers := hs,
                 bodyLen := 0 }, rest)) ∧
    (∀ s, hget hs "content-length" = some s → goParseInt64 s = none →
        readRequestRest m u p buf = .error ()) := by
  constructor
  · intro habs
    simp [readRequestRest, hh, habs]
  · intro s hpres hbad
    simp [readRequestRest, hh, hpres, hbad]

/-- Witness for C8: no headers gives body length 0; an unparsable
Content-Length value of "five" fails the parse. -/
theorem contentLength_rule_witness :
    readRequestRest "GET" "/" "HTTP/1.1" ("\r\n".toList)
      = .ok ({ method := "GET", uri := "/", proto := "HTTP/1.1",
               headers := [], bodyLen := 0 }, []) ∧
    readRequestRest "GET" "/" "HTTP/1.1"
        ("Content-Length: five\r\n\r\n".toList) = .error () := by
  constructor
  · exact (contentLength_rule "GET" "/" "HTTP/1.1" ("\r\n".toList) [] []
      (by rfl)).1 (by rfl)
  · exact (contentLength_rule "GET" "/" "HTTP/1.1"
      ("Content-Length: five\r\n\r\n".toList)
      [("content-length", "five")] [] (by rfl)).2 "five" (by rfl) (by rfl)

/-- Counterexample for C4: on the header line " Host: example.com" the
code stores the key " host" (lower-cased but NOT trimmed), while the
claim's key lowercase(trim(K)) would be "host". -/
theorem parseHeaderLine_key_untrimmed :
    parseHeaderLine " Host: example.com" = some (" host", "example.com") ∧
    goToLower (goTrimSpace " Host") = "host" ∧
    (" host" : String) ≠ "host" := by
  refine ⟨rfl, rfl, by decide⟩

/-- Claim C4 as amended: a header line with a colon splits at the first
colon into K and V and is stored as key = lowercase(K) — the key is NOT
trimmed — and value = trim(V), preserving any further colons inside the
value; a line without a colon parses to nothing, and the header loop
skips it silently, neither failing nor storing an entry. -/
theorem parseHeaderLine_spec (ln : String) :
    (∀ k v, goSplitN2 ln ':' = [k, v] →
        parseHeaderLine ln = some (goToLower k, goTrimSpace v)) ∧
    (splitFirst ':' ln.toList = none → parseHeaderLine ln = none) ∧
    (∀ (hs : List (String × String)) (rest : List Char),
        ln.toList ≠ [] → '\n' ∉ ln.toList → splitFirst ':' ln.toList = none →
        readHeaders hs (ln.toList ++ '\r' :: '\n' :: rest)
          = readHeaders hs rest) := by
  refine ⟨?_, ?_, ?_⟩
  · intro k v h
    simp [parseHeaderLine, h]
  · intro h
    simp only [String.toList] at h
    simp [parseHeaderLine, goSplitN2, h]
  · intro hs rest hne hnl hnc
    have hnl2 : '\n' ∉ ln.toList ++ ['\r'] := by
      simp only [List.mem_append, List.mem_singleton]
      rintro (h | h)
      · exact hnl h
      · exact absurd h (by decide)
    have htl : takeLine (ln.toList ++ '\r' :: '\n' :: rest)
        = some (ln.toList ++ ['\r', '\n'], rest) := by
      have := takeLine_append (ln.toList ++ ['\r']) rest hnl2
      simpa [List.append_assoc] using this
    have hline : readHTTPLine (ln.toList ++ '\r' :: '\n' :: rest)
        = .ok (ln, rest) := by
      simp only [readHTTPLine, htl]
      have : goTrimSuffix (String.mk (ln.toList ++ ['\r', '\n'])) "\r\n"
          = ln := by
        simp only [goTrimSuffix]
        have h2 : (String.mk (ln.toList ++ ['\r', '\n'])).toList
            = ln.toList ++ ['\r', '\n'] := rfl
        rw [h2, show ("\r\n" : String).toList = ['\r', '\n'] from rfl,
          listTrimSuffix_crlf]
        rfl
      rw [this]
    have hnc2 : splitFirst ':' ln.data = none := hnc
    have hlen : ln.length ≠ 0 := by
      intro h0
      exact hne (by
        have : ln.toList.length = 0 := h0
        exact List.length_eq_zero.mp this)
    have hph : parseHeaderLine ln = none := by
      simp [parseHeaderLine, goSplitN2, hnc2]
    show readHeadersF ((ln.toList ++ '\r' :: '\n' :: rest).length + 1) hs
        (ln.toList ++ '\r' :: '\n' :: rest) = readHeaders hs rest
    have hlen2 : (ln.toList ++ '\r' :: '\n' :: rest).length + 1
        = (ln.toList.length + rest.length + 2) + 1 := by
      simp [List.length_append]
      omega
    rw [hlen2]
    simp only [readHeadersF, hline, hlen, if_neg, hph]
    exact readHeadersF_stable (ln.toList.length + rest.length + 2)
      (rest.length + 1) hs rest (by omega) (by omega)

/-- Witness for C4 (amended): colons in the value survive; a colon-free
line is skipped by the header loop without an error or an entry. -/
theorem parseHeaderLine_spec_witness :
    parseHeaderLine "Host: a:b:c" = some ("host", "a:b:c") ∧
    parseHeaderLine "nocolon" = none ∧
    readHeaders [] ("nocolon\r\n\r\n".toList)
      = readHeaders [] ("\r\n".toList) := by
    refine ⟨?_, ?_, ?_⟩
    · exact (parseHeaderLine_spec "Host: a:b:c").1 "Host" " a:b:c" (by rfl)
    · exact (parseHeaderLine_spec "nocolon").2.1 (by rfl)
    · exact (parseHeaderLine_spec "nocolon").2.2 [] ("\r\n".toList)
        (by decide) (by decide) (by rfl)

/-- One unrolling of the header loop when a line is available. -/
theorem readHeaders_step (hs : List (String × String)) (buf : List Char)
    (ln : String) (rest : List Char)
    (h : readHTTPLine buf = .ok (ln, rest)) :
    readHeaders hs buf =
      if ln.length = 0 then .ok (hs, rest)
      else
        match parseHeaderLine ln with
        | some kv => readHeaders (hset hs kv.1 kv.2) rest
        | none => readHeaders hs rest := by
  have hrl : rest.length < buf.length := by
    have := readHTTPLine_shrinks buf (ln, rest) h
    simpa using this
  show readHeadersF (buf.length + 1) hs buf = _
  simp only [readHeadersF, h]
  by_cases hz : ln.length = 0
  · simp [hz]
  · rw [if_neg hz, if_neg hz]
    cases hph : parseHeaderLine ln with
    | some kv =>
      exact readHeadersF_stable buf.length (rest.length + 1) _ rest
        (by omega) (by omega)
    | none =>
      exact readHeadersF_stable buf.length (rest.length + 1) hs rest
        (by omega) (by omega)

/-- Claim C10: the line reader strips the terminator only when the raw
line ends in the two-byte CRLF sequence; a line terminated by a bare LF
is returned with the LF still attached, so the raw line "\n" comes back
as a string of length 1, which the header loop does NOT treat as the
empty line ending the header section (whereas "\r\n" does end it). -/
theorem readHTTPLine_strips_only_crlf (pre rest : List Char)
    (hnl : '\n' ∉ pre) (hcr : pre.getLast? ≠ some '\r') :
    readHTTPLine (pre ++ '\n' :: rest)
      = .ok (String.mk (pre ++ ['\n']), rest) ∧
    (String.mk (pre ++ ['\n'])).length = pre.length + 1 ∧
    readHTTPLine (pre ++ '\r' :: '\n' :: rest) = .ok (String.mk pre, rest) ∧
    (∀ hs : List (String × String),
        readHeaders hs ('\n' :: rest) = readHeaders hs rest ∧
        readHeaders hs ('\r' :: '\n' :: rest) = .ok (hs, rest)) := by
  refine ⟨?_, ?_, ?_, ?_⟩
  · have htl := takeLine_append pre rest hnl
    simp only [readHTTPLine, htl]
    have h1 : goTrimSuffix (String.mk (pre ++ ['\n'])) "\r\n"
        = String.mk (pre ++ ['\n']) := by
      simp only [goTrimSuffix]
      rw [show (String.mk (pre ++ ['\n'])).toList = pre ++ ['\n'] from rfl,
        show ("\r\n" : String).toList = ['\r', '\n'] from rfl,
        listTrimSuffix_lf_only pre hcr]
    rw [h1]
  · show (pre ++ ['\n']).length = pre.length + 1
    simp
  · have hnl2 : '\n' ∉ pre ++ ['\r'] := by
      simp only [List.mem_append, List.mem_singleton]
      rintro (h | h)
      · exact hnl h
      · exact absurd h (by decide)
    have htl : takeLine (pre ++ '\r' :: '\n' :: rest)
        = some (pre ++ ['\r', '\n'], rest) := by
      have := takeLine_append (pre ++ ['\r']) rest hnl2
      simpa [List.append_assoc] using this
    simp only [readHTTPLine, htl]
    have h3 : goTrimSuffix (String.mk (pre ++ ['\r', '\n'])) "\r\n"
        = String.mk pre := by
      simp only [goTrimSuffix]
      rw [show (String.mk (pre ++ ['\r', '\n'])).toList
          = pre ++ ['\r', '\n'] from rfl,
        show ("\r\n" : String).toList = ['\r', '\n'] from rfl,
        listTrimSuffix_crlf]
    rw [h3]
  · intro hs
    constructor
    · rw [readHeaders_step hs ('\n' :: rest) "\n" rest rfl]
      rfl
    · rw [readHeaders_step hs ('\r' :: '\n' :: rest) "" rest rfl]
      rfl

/-- Witness for C10 at a concrete one-character line. -/
theorem readHTTPLine_strips_only_crlf_witness :
    readHTTPLine ("a\nrest".toList) = .ok ("a\n", "rest".toList) ∧
    readHTTPLine ("a\r\nrest".toList) = .ok ("a", "rest".toList) ∧
    readHeaders [] ('\n' :: "\r\n".toList) = readHeaders [] ("\r\n".toList) ∧
    readHeaders [] ('\r' :: '\n' :: "x".toList) = .ok ([], "x".toList) := by
  have h1 := readHTTPLine_strips_only_crlf ['a'] ("rest".toList)
    (by decide) (by decide)
  have h2 := readHTTPLine_strips_only_crlf ['a'] ("\r\n".toList)
    (by decide) (by decide)
  have h3 := readHTTPLine_strips_only_crlf ['a'] ("x".toList)
    (by decide) (by decide)
  exact ⟨h1.1, h1.2.2.1, (h2.2.2.2 []).1, (h3.2.2.2 []).2⟩

/-- Draining a `LimitedReader ⟨n, s⟩` with any positive read-buffer size
and enough read calls yields exactly the first `min n |s|` stream bytes,
afterwards every read reports EOF with no bytes, and precisely the bytes
beyond the limit remain on the underlying stream. -/
theorem lrDrain_spec (fuel : Nat) :
    ∀ (n : Int) (s : List Char) (cap : Nat),
      0 ≤ n → 1 ≤ cap → n.toNat ≤ fuel →
      (lrDrain fuel ⟨n, s⟩ cap).1 = s.take (min n.toNat s.length) ∧
      (lrDrain fuel ⟨n, s⟩ cap).2.stream = s.drop (min n.toNat s.length) ∧
      lrRead (lrDrain fuel ⟨n, s⟩ cap).2 cap
        = ([], (lrDrain fuel ⟨n, s⟩ cap).2) := by
  induction fuel with
  | zero =>
    intro n s cap hn hcap hfuel
    have hn0 : n = 0 := by omega
    subst hn0
    simp [lrDrain, lrRead]
  | succ fuel ih =>
    intro n s cap hn hcap hfuel
    by_cases hn0 : n ≤ 0
    · have he : n = 0 := le_antisymm hn0 hn
      subst he
      simp [lrDrain, lrRead]
    · have hpos : 0 < n := lt_of_not_le hn0
      have hread : lrRead ⟨n, s⟩ cap
          = (s.take (if (cap : Int) > n then n.toNat else cap),
             ⟨n - ((s.take (if (cap : Int) > n then n.toNat else cap)).length : Int),
              s.drop (if (cap : Int) > n then n.toNat else cap)⟩) := by
        simp only [lrRead, if_neg hn0]
      set cap2 := if (cap : Int) > n then n.toNat else cap with hcap2def
      have hc1 : 1 ≤ cap2 := by
        rw [hcap2def]; split_ifs <;> omega
      have hc2 : cap2 ≤ n.toNat := by
        rw [hcap2def]; split_ifs <;> omega
      by_cases hse : s = []
      · subst hse
        have hr2 : lrRead ⟨n, ([] : List Char)⟩ cap = ([], ⟨n, []⟩) := by
          simp [lrRead, if_neg hn0]
        have hd : lrDrain (fuel + 1) ⟨n, ([] : List Char)⟩ cap
            = ([], ⟨n, []⟩) := by
          simp only [lrDrain, hr2]
          simp
        rw [hd]
        exact ⟨by simp, by simp, by simpa using hr2⟩
      · have hslen : 1 ≤ s.length := by
          have := List.length_pos.mpr hse; omega
        have hgotne : s.take cap2 ≠ [] := by
          have hl : 0 < (s.take cap2).length := by
            rw [List.length_take]; omega
          exact List.length_pos.mp hl
        have hd : lrDrain (fuel + 1) ⟨n, s⟩ cap
            = ((s.take cap2) ++
                (lrDrain fuel ⟨n - ((s.take cap2).length : Int),
                  s.drop cap2⟩ cap).1,
               (lrDrain fuel ⟨n - ((s.take cap2).length : Int),
                 s.drop cap2⟩ cap).2) := by
          simp only [lrDrain, hread]
          rw [if_neg hgotne]
        have hglen : (s.take cap2).length = min cap2 s.length :=
          List.length_take _ _
        have hn2 : 0 ≤ n - ((s.take cap2).length : Int) := by
          rw [hglen]; omega
        have hf2 : (n - ((s.take cap2).length : Int)).toNat ≤ fuel := by
          rw [hglen]; omega
        have hih := ih (n - ((s.take cap2).length : Int)) (s.drop cap2) cap
          hn2 hcap hf2
        have harith :
            min (cap2 + min (n - ((s.take cap2).length : Int)).toNat
              ((s.drop cap2).length)) s.length
            = min (min n.toNat s.length) s.length := by
          simp only [hglen, List.length_drop]
          omega
        have htake :
            s.take (cap2 + min (n - ((s.take cap2).length : Int)).toNat
              ((s.drop cap2).length)) = s.take (min n.toNat s.length) :=
          List.take_eq_take.mpr harith
        refine ⟨?_, ?_, ?_⟩
        · rw [hd, hih.1, ← List.take_add]
          exact htake
        · rw [hd]
          show (lrDrain fuel ⟨n - ((s.take cap2).length : Int),
            s.drop cap2⟩ cap).2.stream = s.drop (min n.toNat s.length)
          rw [hih.2.1, List.drop_drop]
          have heq :
              s.take (cap2 + min (n - ((s.take cap2).length : Int)).toNat
                  ((s.drop cap2).length)) ++
                s.drop (cap2 + min (n - ((s.take cap2).length : Int)).toNat
                  ((s.drop cap2).length))
              = s.take (min n.toNat s.length) ++
                s.drop (min n.toNat s.length) := by
            rw [List.take_append_drop, List.take_append_drop]
          rw [htake] at heq
          exact List.append_cancel_left heq
        · rw [hd]
          exact hih.2.2

/-- Claim C6: for a successfully parsed request with body allowance `n ≥
0`, the `io.LimitedReader` exposed as the body yields exactly the first
`min n |rest|` bytes of the shared connection buffer (in particular at
most `n` bytes), then reports end-of-stream even if more bytes remain
buffered, and leaves the bytes beyond the limit on the buffer for the
next request's parse. -/
theorem requestBody_bounded (buf : List Char) (req : Request)
    (rest : List Char) (_hreq : readRequest buf = .ok (req, rest))
    (hn : 0 ≤ req.bodyLen) (cap fuel : Nat) (hcap : 1 ≤ cap)
    (hfuel : req.bodyLen.toNat ≤ fuel) :
    (lrDrain fuel (requestBody req rest) cap).1
      = rest.take (min req.bodyLen.toNat rest.length) ∧
    (lrDrain fuel (requestBody req rest) cap).1.length
      ≤ req.bodyLen.toNat ∧
    lrRead (lrDrain fuel (requestBody req rest) cap).2 cap
      = ([], (lrDrain fuel (requestBody req rest) cap).2) ∧
    (lrDrain fuel (requestBody req rest) cap).2.stream
      = rest.drop (min req.bodyLen.toNat rest.length) := by
  have h := lrDrain_spec fuel req.bodyLen rest cap hn hcap hfuel
  refine ⟨h.1, ?_, h.2.2, h.2.1⟩
  rw [show requestBody req rest = ⟨req.bodyLen, rest⟩ from rfl, h.1,
    List.length_take]
  omega

/-- The request parsed out of
`POST /u HTTP/1.1\r\ncontent-length: 5\r\n\r\n`, used by the C6 witness. -/
def samplePost : Request :=
  { method := "POST", uri := "/u", proto := "HTTP/1.1",
    headers := [("content-length", "5")], bodyLen := 5 }

/-- Witness for C6: `Content-Length: 5` with "HELLONEXT" buffered; the
body reader yields "HELLO" and "NEXT" stays for the next parse. -/
theorem requestBody_bounded_witness :
    (lrDrain 5 (requestBody samplePost ("HELLONEXT".toList)) 2).1
      = "HELLO".toList ∧
    (lrDrain 5 (requestBody samplePost ("HELLONEXT".toList)) 2).2.stream
      = "NEXT".toList := by
  have h := requestBody_bounded
    ("POST /u HTTP/1.1\r\ncontent-length: 5\r\n\r\nHELLONEXT".toList)
    samplePost ("HELLONEXT".toList) (by rfl) (by decide) 2 5
    (by decide) (by decide)
  exact ⟨h.1, h.2.2.2⟩

end Http
